import Mathlib

/-!
Shallow embedding of the genomic viewport engine of the CGpt visualizer
(src/visualizer/cgpt-visualizer-website/src/GenomeBrowser.js, the component
version whose module scope starts at the `realChromosome` declaration).

Conventions of the embedding:
* JavaScript numbers are modelled as rationals; all the arithmetic the
  engine performs on them (linear scales, clamping, rounding) is exact on
  the inputs considered here.
* The stored viewport `zoomRegion = [start, end]` array becomes the
  `Region` structure; the field `stop` embeds the source field `end`
  (a reserved word in Lean).
* The component-wide layout constants are `margin.left = 60` and
  `margin.right = 60`; the window width is a parameter `W`
  (`window.innerWidth` in the source).  Chromosome lengths are integral
  base-pair counts, passed to theorems as a natural number where
  integrality matters.
-/

namespace CGpt

/-! ## Data model -/

/-- The viewport region, stored in the source as the two element array
`zoomRegion = [start, end]`.  The field `stop` embeds the source field
`end`.  Coordinates are base pairs. -/
structure Region where
  start : ℚ
  stop : ℚ
  deriving DecidableEq, Repr

/-- A gene record as consumed by the component: `id`, `start`, `end`
(field `stop` here) and `strand`. -/
structure Gene where
  id : String
  start : ℚ
  stop : ℚ
  strand : Char
  deriving DecidableEq, Repr

/-- A d3 zoom transform: scale factor `k` and x translation `tx`. -/
structure Transform where
  k : ℚ
  tx : ℚ
  deriving DecidableEq, Repr

/-! ## Linear scales -/

/-- Application of a d3 linear scale with domain `[d0, d1]` and range
`[r0, r1]` to a point `x` of the domain. -/
def scaleApply (d0 d1 r0 r1 x : ℚ) : ℚ := r0 + (x - d0) * (r1 - r0) / (d1 - d0)

/-- Inverse of a d3 linear scale with domain `[d0, d1]` and range
`[r0, r1]`: maps a pixel `p` back into the domain, as `scale.invert(p)`. -/
def scaleInvert (d0 d1 r0 r1 p : ℚ) : ℚ := d0 + (p - r0) * (d1 - d0) / (r1 - r0)

/-- The scale named `x` in both the d3 zoom handler and the transform
synchronization effect: domain `[0, length]`, range
`[margin.left, width - margin.left - margin.right]` (GenomeBrowser.js
lines 1098 and 1134). -/
def zoomX (length W x : ℚ) : ℚ := scaleApply 0 length 60 (W - 120) x

/-- Inverse of `zoomX`. -/
def zoomXInv (length W p : ℚ) : ℚ := scaleInvert 0 length 60 (W - 120) p

/-- The overview scale `xOverview` (lines 1172 to 1174): domain
`[0, length]`, range `[margin.left, availableWidth - margin.right]`. -/
def xOverview (length W x : ℚ) : ℚ := scaleApply 0 length 60 (W - 60) x

/-- Inverse of `xOverview`. -/
def xOverviewInv (length W p : ℚ) : ℚ := scaleInvert 0 length 60 (W - 60) p

/-- Inverse of the detail scale `xDetail` (lines 1355 to 1357): domain is
the current region, range `[margin.left, availableWidth - margin.right]`. -/
def xDetailInv (r : Region) (W p : ℚ) : ℚ := scaleInvert r.start r.stop 60 (W - 60) p

/-- JavaScript `Math.round`: round half toward positive infinity. -/
def jsRound (x : ℚ) : ℤ := ⌊x + 1/2⌋

/-! ## Transform and region conversion (d3 zoom handler and sync effect) -/

/-- Region to transform conversion, from the transform synchronization
effect (lines 1135 to 1137):
`k = length / (end - start)` and `tx = -x(start) * k + margin.left`. -/
def regionToTransform (length W : ℚ) (r : Region) : Transform :=
  { k := length / (r.stop - r.start)
    tx := -(zoomX length W r.start) * (length / (r.stop - r.start)) + 60 }

/-- The inverse pixel map of a d3 transform, `t.invertX(p) = (p - tx) / k`. -/
def invertX (t : Transform) (p : ℚ) : ℚ := (p - t.tx) / t.k

/-- The domain of `t.rescaleX(x)` where `x = zoomX`: d3 computes
`x.range().map(t.invertX).map(x.invert)` (line 1099). -/
def rescaledDomain (length W : ℚ) (t : Transform) : ℚ × ℚ :=
  (zoomXInv length W (invertX t 60), zoomXInv length W (invertX t (W - 120)))

/-- The full view snap of the zoom handler (lines 1104 to 1106): a region
whose bounds lie within 1 bp of `[0, length]` is replaced by exactly
`[0, length]`. -/
def snapRegion (length : ℚ) (r : Region) : Region :=
  if r.start ≤ 0 + 1 ∧ length - 1 ≤ r.stop then ⟨0, length⟩ else r

/-- Transform to region conversion, from the body of the d3 zoom handler
(lines 1097 to 1106): rescale the full extent domain through the
transform, clamp into `[0, length]`, then apply the full view snap. -/
def transformToRegion (length W : ℚ) (t : Transform) : Region :=
  let d := rescaledDomain length W t
  snapRegion length ⟨max 0 d.1, min length d.2⟩

/-- The complete zoom handler commit (lines 1100 to 1116): derive the
region from the transform and store it only when it differs from the
previous region by more than 0.5 bp on either bound. -/
def zoomHandlerCommit (length W : ℚ) (prev : Region) (t : Transform) : Region :=
  let nr := transformToRegion length W t
  if 1/2 < |nr.start - prev.start| ∨ 1/2 < |nr.stop - prev.stop| then nr else prev

/-! ## The other interaction channels -/

/-- The zoom slider handler `handleZoomBarChange` (lines 2045 to 2063),
already given the exponentiated zoom factor `zoom = 10 ^ logZoom`: center
on the current midpoint with width `length / zoom`, round and clamp each
bound, then run the two boundary compensation branches of the source. -/
def handleZoomBarChange (length : ℚ) (r : Region) (zoom : ℚ) : Region :=
  let center := (r.start + r.stop) / 2
  let regionSize := length / zoom
  let newStart : ℚ := max 0 (jsRound (center - regionSize / 2) : ℚ)
  let newEnd : ℚ := min length (jsRound (center + regionSize / 2) : ℚ)
  let p1 : ℚ × ℚ := if newStart < 0 then (0, newEnd + (0 - newStart)) else (newStart, newEnd)
  let p2 : ℚ × ℚ := if p1.2 > length then (p1.1 - (p1.2 - length), length) else p1
  ⟨p2.1, p2.2⟩

/-- The chromosome bar pan handler `dragChromosome` (lines 1717 to 1758):
the pixel delta from drag start is converted to a bp shift through the bp
per pixel ratio of the region captured at drag start (stored in the
`data-start-zoom` attribute, never recomputed mid drag), the start region
is shifted, and a bound that crosses an end of the chromosome is
compensated by shifting the opposite bound.  The two sequential in place
updates of the source are modelled by the two conditional pairs. -/
def dragChromosome (length W : ℚ) (startZoom : Region) (deltaX : ℚ) : Region :=
  let bpPerPixel := (startZoom.stop - startZoom.start) / (W - 120)
  let bpShift := deltaX * bpPerPixel
  let newStart := startZoom.start - bpShift
  let newEnd := startZoom.stop - bpShift
  let newStart2 := if newStart < 0 then 0 else newStart
  let newEnd2 := if newStart < 0 then newEnd + (0 - newStart) else newEnd
  let newStart3 := if newEnd2 > length then newStart2 - (newEnd2 - length) else newStart2
  let newEnd3 := if newEnd2 > length then length else newEnd2
  ⟨newStart3, newEnd3⟩

/-- The overview indicator drag handler `dragZoomRect` (lines 1225 to
1264): a no-op in full view; otherwise the rectangle of pixel width
`xOverview(end) - xOverview(start)` is moved to the adjusted pointer x
clamped between the margins, the new bounds are read back through the
overview scale, and the region is stored only when a bound moved by more
than 1 bp. -/
def dragZoomRectCommit (length W : ℚ) (prev : Region) (adjustedX : ℚ) : Region :=
  if prev.start ≤ 0 + 1 ∧ length - 1 ≤ prev.stop then prev
  else
    let widthPx := xOverview length W prev.stop - xOverview length W prev.start
    let minX : ℚ := 60
    let maxX := W - 60 - widthPx
    let newX := max minX (min maxX adjustedX)
    let newStart := xOverviewInv length W newX
    let newEnd := xOverviewInv length W (newX + widthPx)
    if 1 < |newStart - prev.start| ∨ 1 < |newEnd - prev.stop| then ⟨newStart, newEnd⟩ else prev

/-- The scale band brush end handler `scaleBrush` (lines 1648 to 1669):
a selection wider than 5 px commits the brushed pixel range converted
through the current detail scale; a narrower selection is ignored. -/
def scaleBrushCommit (_length W : ℚ) (prev : Region) (x0 x1 : ℚ) : Region :=
  if 5 < |x1 - x0| then ⟨xDetailInv prev W x0, xDetailInv prev W x1⟩ else prev

/-! ## Manual position input -/

/-- Characters of a string with every comma removed, as in
`editableStart.replace(/,/g, '')` (lines 2024 and 2025). -/
def stripCommas (s : String) : String := String.mk (s.data.filter (fun c => !(c == ',')))

/-- Decimal value of a list of digit characters. -/
def digitsToNat (ds : List Char) : ℕ := ds.foldl (fun n c => 10 * n + (c.toNat - 48)) 0

/-- Maximal leading digit run with a sign, or `none` when the run is
empty. -/
def jsParseDigits (sign : ℤ) (cs : List Char) : Option ℤ :=
  match cs.takeWhile (fun c => c.isDigit) with
  | [] => none
  | ds => some (sign * (digitsToNat ds : ℤ))

/-- Modelled ECMAScript `parseInt` with no radix argument: skip leading
whitespace, read an optional sign, then the maximal run of decimal
digits; `none` stands for `NaN` when no digit is read.  The automatic
radix 16 branch for `0x` prefixed strings is never produced by the
numeric position fields and is not modelled. -/
def jsParseInt (s : String) : Option ℤ :=
  let cs := s.data.dropWhile (fun c => c.isWhitespace)
  match cs with
  | '-' :: rest => jsParseDigits (-1) rest
  | '+' :: rest => jsParseDigits 1 rest
  | _ => jsParseDigits 1 cs

/-- The repair pipeline of `handlePositionSubmit` after parsing (lines
2031 to 2042): swap when start exceeds end, clamp both bounds into
`[0, length]`, and expand the end to start plus 10 (clamped to the
length) when the width falls below 10 bp. -/
def commitPositionValues (length : ℚ) (start0 end0 : ℤ) : Region :=
  let s0 := if start0 > end0 then end0 else start0
  let e0 := if start0 > end0 then start0 else end0
  let s : ℚ := max 0 (min length (s0 : ℚ))
  let e : ℚ := max 0 (min length (e0 : ℚ))
  let e2 : ℚ := if e - s < 10 then min length (s + 10) else e
  ⟨s, e2⟩

/-- The manual position form handler `handlePositionSubmit` (lines 2020
to 2043): parse each field with commas removed, fall back to the rounded
current committed value on parse failure, then repair and commit.  The
function is total: no input propagates an error. -/
def handlePositionSubmit (length : ℚ) (regionStart regionEnd : ℤ)
    (editableStart editableEnd : String) : Region :=
  commitPositionValues length
    ((jsParseInt (stripCommas editableStart)).getD regionStart)
    ((jsParseInt (stripCommas editableEnd)).getD regionEnd)

/-! ## Commit events: one constructor per interaction path -/

/-- One region committing interaction, with the inputs each handler reads
beyond the previous region. -/
inductive CommitEvent where
  /-- A wheel or pinch gesture, as the d3 transform it produced. -/
  | zoomGesture (t : Transform)
  /-- An overview indicator drag, as the offset adjusted pointer x. -/
  | indicatorDrag (adjustedX : ℚ)
  /-- A chromosome bar pan, as the total pixel delta from drag start. -/
  | chromosomePan (deltaX : ℚ)
  /-- A scale band brush, as the selection pixel range. -/
  | scaleBrush (x0 x1 : ℚ)
  /-- A zoom slider change, as the exponentiated zoom factor. -/
  | zoomSlider (zoom : ℚ)
  /-- A manual position form submission, as the two field texts. -/
  | positionSubmit (editableStart editableEnd : String)
  /-- The reset view button (line 2065) and the genes loaded effect. -/
  | reset

/-- The region stored by one interaction, dispatching to the handler of
each path.  The manual form falls back to `Math.round` of the committed
bounds (lines 1996 and 1997) on parse failure. -/
def commit (length W : ℚ) (prev : Region) : CommitEvent → Region
  | .zoomGesture t => zoomHandlerCommit length W prev t
  | .indicatorDrag adjX => dragZoomRectCommit length W prev adjX
  | .chromosomePan dX => dragChromosome length W prev dX
  | .scaleBrush x0 x1 => scaleBrushCommit length W prev x0 x1
  | .zoomSlider z => handleZoomBarChange length prev z
  | .positionSubmit es ee =>
      handlePositionSubmit length (jsRound prev.start) (jsRound prev.stop) es ee
  | .reset => ⟨0, length⟩

/-- The stored region invariant of the data model, in the weak form the
code guarantees: both bounds inside `[0, length]` and ordered. -/
def RegionInBounds (length : ℚ) (r : Region) : Prop :=
  0 ≤ r.start ∧ r.start ≤ r.stop ∧ r.stop ≤ length

/-- Input ranges the hosting surface guarantees to each handler: gesture
transforms have positive scale and a rescaled domain overlapping the
chromosome (d3 enforces this through scaleExtent and translateExtent);
brush selections lie inside the brush extent
`[margin.left, W - margin.right]`; the slider produces zoom factors of at
least 1.  The remaining paths accept any input. -/
def ValidEvent (length W : ℚ) : CommitEvent → Prop
  | .zoomGesture t => 0 < t.k ∧ (rescaledDomain length W t).1 < length ∧
      0 < (rescaledDomain length W t).2
  | .indicatorDrag _ => True
  | .chromosomePan _ => True
  | .scaleBrush x0 x1 => 60 ≤ x0 ∧ x0 ≤ x1 ∧ x1 ≤ W - 60
  | .zoomSlider z => 1 ≤ z
  | .positionSubmit _ _ => True
  | .reset => True

/-! ## Gene visibility, interaction state, letters -/

/-- The visibility culling query `getVisibleGenes` (lines 1063 to 1073):
widen the region by a buffer fraction of its width, clamp the widened
start at 0, and keep the genes overlapping the widened interval. -/
def getVisibleGenes (genes : List Gene) (start stop buffer : ℚ) : List Gene :=
  let bufferAmount := (stop - start) * buffer
  let visibleStart := max 0 (start - bufferAmount)
  let visibleEnd := stop + bufferAmount
  genes.filter (fun g => decide (g.start ≤ visibleEnd) && decide (visibleStart ≤ g.stop))

/-- The hover and selection state of the component together with the
throttle flag of `throttledSetHoveredGene` (lines 1022 to 1031 and 1076
to 1080): `hovered` and `selected` hold the gene records stored by
`setHoveredGene` and `setSelectedGene`. -/
structure UIState where
  hovered : Option Gene
  selected : Option Gene
  throttleBusy : Bool
  deriving DecidableEq, Repr

/-- Pointer events relevant to hover and selection.  `clickGene` covers a
click on a gene glyph or hit box: its handler calls
`event.stopPropagation()` before `setSelectedGene` (lines 1462 to 1465,
1519 to 1522), so the background clearing handler does not run for the
same click.  `clickBackground` is a click on either track background
(lines 1790 to 1813).  `throttleExpire` is the timeout that re-arms the
hover throttle after its 50 ms window. -/
inductive UIEvent where
  | mouseoverGene (g : Gene)
  | mouseoutGene
  | clickGene (g : Gene)
  | clickBackground
  | throttleExpire
  deriving DecidableEq, Repr

/-- One event step of the interaction state.  Hover updates go through
the leading edge throttle: a call inside the 50 ms window is dropped. -/
def step (st : UIState) : UIEvent → UIState
  | .mouseoverGene g =>
      if st.throttleBusy then st
      else { st with hovered := some g, throttleBusy := true }
  | .mouseoutGene =>
      if st.throttleBusy then st
      else { st with hovered := none, throttleBusy := true }
  | .clickGene g => { st with selected := some g }
  | .clickBackground => { st with selected := none }
  | .throttleExpire => { st with throttleBusy := false }

/-- A sequence of events applied in order. -/
def run (st : UIState) (es : List UIEvent) : UIState := es.foldl step st

/-- The per base letter gate of the detail track (lines 1585 and 1586):
letters render only when `bpPerPixel`, the region width over the inner
viewport width `availableWidth - margin.left - margin.right`, is at most
0.2 and the cleaned sequence is nonempty. -/
def showDnaLetters (r : Region) (W : ℚ) (seqLen : ℕ) : Bool :=
  decide ((r.stop - r.start) / (W - 120) ≤ 1/5) && decide (0 < seqLen)

/-- The module load cleaning of the chromosome sequence (line 994):
`chromosomeData.sequence.toUpperCase().replace(/[^ACGT]/g, '')`, with the
ECMAScript uppercase map modelled per character. -/
def cleanSequence (s : String) : String :=
  String.mk ((s.data.map Char.toUpper).filter
    (fun c => c == 'A' || c == 'C' || c == 'G' || c == 'T'))

/-- The letters the per base loop draws (lines 1588 to 1601): indices
from `max(0, floor(start))` up to but excluding
`min(sequence.length, ceil(end))`. -/
def renderedLetters (seq : String) (r : Region) : List Char :=
  let startIdx := (⌊r.start⌋).toNat
  let endIdx := min seq.length (⌈r.stop⌉).toNat
  (seq.data.drop startIdx).take (endIdx - startIdx)

/-- The base to color table `baseColors` (lines 980 to 985) with the
default color fallback of line 1598, `baseColors[base] || '#222'`. -/
def baseColorOrDefault (c : Char) : String :=
  if c = 'A' then "#1f77b4"
  else if c = 'C' then "#2ca02c"
  else if c = 'T' then "#d62728"
  else if c = 'G' then "#ff7f0e"
  else "#222"

/-! ## Helper lemmas -/

theorem jsRound_mono {a b : ℚ} (h : a ≤ b) : jsRound a ≤ jsRound b :=
  Int.floor_mono (by linarith)

theorem jsRound_le_int {a : ℚ} {n : ℤ} (h : a ≤ n) : jsRound a ≤ n := by
  unfold jsRound
  have h1 : ⌊a + 1/2⌋ ≤ ⌊(n : ℚ) + 1/2⌋ := Int.floor_mono (by linarith)
  have h2 : ⌊(n : ℚ) + 1/2⌋ = n := by
    rw [add_comm, Int.floor_add_int]
    norm_num
  omega

theorem jsRound_nonneg {a : ℚ} (h : 0 ≤ a) : 0 ≤ jsRound a :=
  Int.floor_nonneg.mpr (by linarith)

theorem xOverview_eval (L W x : ℚ) :
    xOverview L W x = 60 + x * (W - 120) / L := by
  unfold xOverview scaleApply
  ring

theorem xOverviewInv_eval (L W p : ℚ) : xOverviewInv L W p = (p - 60) * L / (W - 120) := by
  unfold xOverviewInv scaleInvert
  ring

theorem zoomXInv_eval (L W p : ℚ) : zoomXInv L W p = (p - 60) * L / (W - 180) := by
  unfold zoomXInv scaleInvert
  ring

theorem xOverviewInv_nonneg {L W p : ℚ} (hL : 0 < L) (hW : 120 < W) (hp : 60 ≤ p) :
    0 ≤ xOverviewInv L W p := by
  rw [xOverviewInv_eval]
  exact div_nonneg (mul_nonneg (by linarith) hL.le) (by linarith)

theorem xOverviewInv_le_length {L W p : ℚ} (hL : 0 < L) (hW : 120 < W) (hp : p ≤ W - 60) :
    xOverviewInv L W p ≤ L := by
  rw [xOverviewInv_eval, div_le_iff₀ (by linarith : (0:ℚ) < W - 120)]
  nlinarith [mul_le_mul_of_nonneg_right (show p - 60 ≤ W - 120 by linarith) hL.le]

theorem xOverviewInv_mono {L W p q : ℚ} (hL : 0 < L) (hW : 120 < W) (hpq : p ≤ q) :
    xOverviewInv L W p ≤ xOverviewInv L W q := by
  rw [xOverviewInv_eval, xOverviewInv_eval,
    div_le_div_iff_of_pos_right (by linarith : (0:ℚ) < W - 120)]
  exact mul_le_mul_of_nonneg_right (by linarith) hL.le

/-- Round trip key step: rescaling the domain through the transform built
from a region recovers the two region bounds exactly. -/
theorem rescaledDomain_regionToTransform (L W : ℚ) (r : Region)
    (hL : L ≠ 0) (hW : W - 180 ≠ 0) (hr : r.stop - r.start ≠ 0) :
    rescaledDomain L W (regionToTransform L W r) = (r.start, r.stop) := by
  have hk : L / (r.stop - r.start) ≠ 0 := div_ne_zero hL hr
  have hW2 : (-180 : ℚ) + W ≠ 0 := fun h => hW (by linarith)
  unfold rescaledDomain regionToTransform invertX zoomX zoomXInv scaleApply scaleInvert
  simp only [Prod.mk.injEq]
  constructor <;> · field_simp; ring_nf; field_simp [hW2]; ring

/-- The two boundary compensation branches of the slider handler are dead
code: the clamps run first, so the committed region is exactly the pair
of independently rounded and clamped bounds. -/
theorem zoomBar_eq (L z : ℚ) (r : Region) :
    handleZoomBarChange L r z =
      ⟨max 0 (jsRound ((r.start + r.stop) / 2 - L / z / 2) : ℚ),
       min L (jsRound ((r.start + r.stop) / 2 + L / z / 2) : ℚ)⟩ := by
  unfold handleZoomBarChange
  have h1 : ¬ (max 0 ((jsRound ((r.start + r.stop) / 2 - L / z / 2) : ℤ) : ℚ) < 0) := by
    simp [not_lt, le_max_iff]
  have h2 : ¬ (min L ((jsRound ((r.start + r.stop) / 2 + L / z / 2) : ℤ) : ℚ) > L) := by
    simp [not_lt, min_le_iff]
  simp only [h1, if_false, h2]

/-- Well-formedness of the clamp and minimum width pipeline on ordered
inputs. -/
theorem clamp_pipeline_wf (L x y : ℚ) (hL : 0 ≤ L) :
    0 ≤ max 0 (min L x) ∧
    max 0 (min L x) ≤
      (if max 0 (min L y) - max 0 (min L x) < 10
        then min L (max 0 (min L x) + 10) else max 0 (min L y)) ∧
    (if max 0 (min L y) - max 0 (min L x) < 10
      then min L (max 0 (min L x) + 10) else max 0 (min L y)) ≤ L ∧
    (10 ≤ (if max 0 (min L y) - max 0 (min L x) < 10
            then min L (max 0 (min L x) + 10) else max 0 (min L y)) - max 0 (min L x) ∨
      (if max 0 (min L y) - max 0 (min L x) < 10
        then min L (max 0 (min L x) + 10) else max 0 (min L y)) = L) := by
  have hs0 : 0 ≤ max 0 (min L x) := le_max_left _ _
  have hsL : max 0 (min L x) ≤ L := max_le hL (min_le_left _ _)
  have heL : max 0 (min L y) ≤ L := max_le hL (min_le_left _ _)
  split_ifs with h
  · refine ⟨hs0, le_min hsL (by linarith), min_le_left _ _, ?_⟩
    rcases le_total (max 0 (min L x) + 10) L with hc | hc
    · left
      rw [min_eq_right hc]
      linarith
    · right
      exact min_eq_left hc
  · exact ⟨hs0, by linarith, heL, Or.inl (by linarith)⟩

/-- Well-formedness of `commitPositionValues`: the committed region has
ordered bounds inside `[0, length]`, and has width at least 10 unless its
end was clamped to the chromosome length. -/
theorem commitPositionValues_wf (L : ℚ) (a b : ℤ) (hL : 0 ≤ L) :
    0 ≤ (commitPositionValues L a b).start ∧
    (commitPositionValues L a b).start ≤ (commitPositionValues L a b).stop ∧
    (commitPositionValues L a b).stop ≤ L ∧
    (10 ≤ (commitPositionValues L a b).stop - (commitPositionValues L a b).start ∨
      (commitPositionValues L a b).stop = L) := by
  have h := clamp_pipeline_wf L ((if a > b then b else a : ℤ) : ℚ)
    ((if a > b then a else b : ℤ) : ℚ) hL
  simpa only [commitPositionValues] using h

/-- Width preservation, bound compensation and the exact shift formula of
the chromosome pan handler, shared by the pan related claims. -/
theorem dragChromosome_props (L W : ℚ) (r : Region) (deltaX : ℚ)
    (h0 : 0 ≤ r.start) (heL : r.stop ≤ L) :
    (dragChromosome L W r deltaX).stop - (dragChromosome L W r deltaX).start
        = r.stop - r.start ∧
    0 ≤ (dragChromosome L W r deltaX).start ∧
    (dragChromosome L W r deltaX).stop ≤ L ∧
    (0 ≤ r.start - deltaX * ((r.stop - r.start) / (W - 120)) →
      r.stop - deltaX * ((r.stop - r.start) / (W - 120)) ≤ L →
      dragChromosome L W r deltaX =
        ⟨r.start - deltaX * ((r.stop - r.start) / (W - 120)),
         r.stop - deltaX * ((r.stop - r.start) / (W - 120))⟩) := by
  simp only [dragChromosome]
  split_ifs with hA hB hC
  · exact ⟨by ring, by linarith, by linarith,
      fun hx _ => absurd hA (not_lt.mpr hx)⟩
  · exact ⟨by ring, by linarith, by linarith,
      fun hx _ => absurd hA (not_lt.mpr hx)⟩
  · exact ⟨by ring, by linarith, by linarith,
      fun _ hy => absurd hC (not_lt.mpr hy)⟩
  · exact ⟨by ring, by linarith, by linarith, fun _ _ => rfl⟩

/-- Any transform with positive scale whose rescaled domain overlaps the
chromosome produces an in-bounds region through the zoom handler
conversion. -/
theorem transformToRegion_in_bounds (L W : ℚ) (t : Transform)
    (hL : 0 < L) (hW : 180 < W) (hk : 0 < t.k)
    (hd0 : (rescaledDomain L W t).1 < L) (hd1 : 0 < (rescaledDomain L W t).2) :
    RegionInBounds L (transformToRegion L W t) := by
  have hmono : (rescaledDomain L W t).1 ≤ (rescaledDomain L W t).2 := by
    unfold rescaledDomain
    dsimp only
    have h60 : invertX t 60 ≤ invertX t (W - 120) := by
      unfold invertX
      rw [div_le_div_iff_of_pos_right hk]
      linarith
    rw [zoomXInv_eval, zoomXInv_eval,
      div_le_div_iff_of_pos_right (by linarith : (0:ℚ) < W - 180)]
    exact mul_le_mul_of_nonneg_right (by linarith) hL.le
  unfold transformToRegion snapRegion
  dsimp only
  split_ifs with h
  · exact ⟨le_rfl, hL.le, le_rfl⟩
  · exact ⟨le_max_left _ _,
      le_min (max_le hL.le hd0.le) (max_le hd1.le hmono), min_le_left _ _⟩

/-- The overview indicator drag commits an in-bounds region from any
pointer position. -/
theorem dragZoomRect_in_bounds (L W : ℚ) (prev : Region) (adjX : ℚ)
    (hL : 0 < L) (hW : 120 < W) (hprev : RegionInBounds L prev) :
    RegionInBounds L (dragZoomRectCommit L W prev adjX) := by
  obtain ⟨h0, hse, heL⟩ := hprev
  have hL0 : L ≠ 0 := ne_of_gt hL
  have hwidth : xOverview L W prev.stop - xOverview L W prev.start
      = (prev.stop - prev.start) * (W - 120) / L := by
    rw [xOverview_eval L W prev.stop, xOverview_eval L W prev.start]
    ring
  have hwnn : 0 ≤ xOverview L W prev.stop - xOverview L W prev.start := by
    rw [hwidth]
    exact div_nonneg (mul_nonneg (by linarith) (by linarith)) hL.le
  have hwle : xOverview L W prev.stop - xOverview L W prev.start ≤ W - 120 := by
    rw [hwidth, div_le_iff₀ hL]
    nlinarith [mul_le_mul_of_nonneg_right (show prev.stop - prev.start ≤ L by linarith)
      (show (0:ℚ) ≤ W - 120 by linarith)]
  simp only [dragZoomRectCommit]
  split_ifs with hfull hguard
  · exact ⟨h0, hse, heL⟩
  · have hnewX_ge : (60 : ℚ) ≤ max 60
        (min (W - 60 - (xOverview L W prev.stop - xOverview L W prev.start)) adjX) :=
      le_max_left _ _
    have hnewX_le : max 60
        (min (W - 60 - (xOverview L W prev.stop - xOverview L W prev.start)) adjX)
        ≤ W - 60 - (xOverview L W prev.stop - xOverview L W prev.start) :=
      max_le (by linarith) (min_le_left _ _)
    refine ⟨xOverviewInv_nonneg hL hW hnewX_ge, xOverviewInv_mono hL hW (by linarith), ?_⟩
    exact xOverviewInv_le_length hL hW (by linarith)
  · exact ⟨h0, hse, heL⟩

/-- A brush selection inside the brush extent commits a sub-region of the
previous region, hence an in-bounds one. -/
theorem scaleBrush_in_bounds (L W : ℚ) (prev : Region) (x0 x1 : ℚ)
    (hW : 120 < W) (hprev : RegionInBounds L prev)
    (hx0 : 60 ≤ x0) (hx01 : x0 ≤ x1) (hx1 : x1 ≤ W - 60) :
    RegionInBounds L (scaleBrushCommit L W prev x0 x1) := by
  obtain ⟨hp0, hpse, hpL⟩ := hprev
  have heval : ∀ p, xDetailInv prev W p
      = prev.start + (p - 60) * (prev.stop - prev.start) / (W - 120) := by
    intro p
    unfold xDetailInv scaleInvert
    ring
  unfold scaleBrushCommit
  split_ifs with h
  · show 0 ≤ xDetailInv prev W x0 ∧ xDetailInv prev W x0 ≤ xDetailInv prev W x1 ∧
      xDetailInv prev W x1 ≤ L
    refine ⟨?_, ?_, ?_⟩
    · rw [heval x0]
      have : 0 ≤ (x0 - 60) * (prev.stop - prev.start) / (W - 120) :=
        div_nonneg (mul_nonneg (by linarith) (by linarith)) (by linarith)
      linarith
    · rw [heval x0, heval x1]
      have : (x0 - 60) * (prev.stop - prev.start) / (W - 120)
          ≤ (x1 - 60) * (prev.stop - prev.start) / (W - 120) := by
        rw [div_le_div_iff_of_pos_right (by linarith : (0:ℚ) < W - 120)]
        exact mul_le_mul_of_nonneg_right (by linarith) (by linarith)
      linarith
    · rw [heval x1]
      have : (x1 - 60) * (prev.stop - prev.start) / (W - 120) ≤ prev.stop - prev.start := by
        rw [div_le_iff₀ (by linarith : (0:ℚ) < W - 120)]
        nlinarith
      linarith
  · exact ⟨hp0, hpse, hpL⟩

/-- The slider commits an in-bounds region on an integral chromosome
length for any zoom factor of at least 1. -/
theorem zoomBar_in_bounds (n : ℕ) (r : Region) (z : ℚ) (hz : 1 ≤ z)
    (hprev : RegionInBounds (n : ℚ) r) :
    RegionInBounds (n : ℚ) (handleZoomBarChange (n : ℚ) r z) := by
  obtain ⟨h0, hse, hL⟩ := hprev
  rw [zoomBar_eq]
  have hzpos : (0 : ℚ) < z := by linarith
  have hsize : 0 ≤ (n : ℚ) / z := div_nonneg (by positivity) hzpos.le
  have hc0 : 0 ≤ (r.start + r.stop) / 2 := by linarith
  have hcn : (r.start + r.stop) / 2 ≤ (n : ℚ) := by linarith
  have ha : ((jsRound ((r.start + r.stop) / 2 - (n : ℚ) / z / 2) : ℤ) : ℚ) ≤ (n : ℚ) := by
    have h := jsRound_le_int (n := (n : ℤ))
      (a := (r.start + r.stop) / 2 - (n : ℚ) / z / 2) (by push_cast; linarith)
    exact_mod_cast h
  have hb : (0 : ℚ) ≤ ((jsRound ((r.start + r.stop) / 2 + (n : ℚ) / z / 2) : ℤ) : ℚ) := by
    have h := jsRound_nonneg (a := (r.start + r.stop) / 2 + (n : ℚ) / z / 2) (by linarith)
    exact_mod_cast h
  have hab : ((jsRound ((r.start + r.stop) / 2 - (n : ℚ) / z / 2) : ℤ) : ℚ)
      ≤ ((jsRound ((r.start + r.stop) / 2 + (n : ℚ) / z / 2) : ℤ) : ℚ) := by
    have h := jsRound_mono (a := (r.start + r.stop) / 2 - (n : ℚ) / z / 2)
      (b := (r.start + r.stop) / 2 + (n : ℚ) / z / 2) (by linarith)
    exact_mod_cast h
  exact ⟨le_max_left _ _, le_min (max_le (by positivity) ha) (max_le hb hab),
    min_le_left _ _⟩

/-! ## Claim C3 -/

/-- Claim C3 (corrected).  Converting an in-bounds region to a pixel
transform and back recovers the region exactly, unless both bounds lie in
the 1 bp snap window of the chromosome ends, in which case the result is
exactly the full extent `[0, length]`.  In particular the round trip is
within 0.5 bp of the original everywhere except inside the snap window. -/
theorem region_transform_roundTrip (L W : ℚ) (r : Region)
    (hL : 0 < L) (hW : 180 < W)
    (h0 : 0 ≤ r.start) (hlt : r.start < r.stop) (hle : r.stop ≤ L) :
    transformToRegion L W (regionToTransform L W r) =
      if r.start ≤ 0 + 1 ∧ L - 1 ≤ r.stop then ⟨0, L⟩ else r := by
  have hL0 : L ≠ 0 := ne_of_gt hL
  have hW0 : W - 180 ≠ 0 := by intro h; linarith
  have hr0 : r.stop - r.start ≠ 0 := by intro h; linarith
  unfold transformToRegion
  rw [rescaledDomain_regionToTransform L W r hL0 hW0 hr0]
  have hmax : max 0 r.start = r.start := max_eq_right h0
  have hmin : min L r.stop = r.stop := min_eq_right hle
  simp only [hmax, hmin]
  unfold snapRegion
  rfl

/-- Witness for `region_transform_roundTrip`: a region away from the snap
window round trips to itself. -/
theorem region_transform_roundTrip_witness :
    transformToRegion 1000 600 (regionToTransform 1000 600 ⟨100, 900⟩) = ⟨100, 900⟩ := by
  have h := region_transform_roundTrip 1000 600 ⟨100, 900⟩ (by norm_num) (by norm_num)
    (by norm_num) (by norm_num) (by norm_num)
  simpa using h

/-- Claim C3 counterexample: the in-bounds region `[1, 999]` of a 1000 bp
chromosome round trips to `[0, 1000]`, which moves each bound by 1 bp,
more than the 0.5 bp the claim allows. -/
theorem roundTrip_snap_counterexample :
    transformToRegion 1000 600 (regionToTransform 1000 600 ⟨1, 999⟩) = ⟨0, 1000⟩ ∧
      ¬ |(0 : ℚ) - 1| ≤ 1/2 := by
  constructor
  · have h := rescaledDomain_regionToTransform 1000 600 ⟨1, 999⟩
      (by norm_num) (by norm_num) (by norm_num)
    unfold transformToRegion snapRegion
    rw [h]
    norm_num [max_def, min_def]
  · norm_num

/-! ## Claim C2 -/

/-- Claim C2 (corrected).  The slider handler rounds each bound and clamps
it into `[0, length]` independently; because the clamps run before the
two compensation branches, those branches never fire, so an overhanging
centered window is truncated rather than shifted inward.  The concrete
part of the claim holds: zoom factor 10 on a 1,000,000 bp chromosome
centered at 500,000 commits `[450000, 550000]`. -/
theorem zoomBar_clamp_characterization :
    (∀ (L z : ℚ) (r : Region),
      handleZoomBarChange L r z =
        ⟨max 0 (jsRound ((r.start + r.stop) / 2 - L / z / 2) : ℚ),
         min L (jsRound ((r.start + r.stop) / 2 + L / z / 2) : ℚ)⟩) ∧
    handleZoomBarChange 1000000 ⟨400000, 600000⟩ 10 = ⟨450000, 550000⟩ := by
  refine ⟨fun L z r => zoomBar_eq L z r, ?_⟩
  rw [zoomBar_eq]
  norm_num [jsRound, max_def, min_def]

/-- Claim C2 counterexample: on a 1,000,000 bp chromosome with current
region `[0, 50000]`, zoom factor 10 asks for a 100,000 bp window centered
at 25,000, which overhangs the left end; the handler commits
`[0, 75000]`, of width 75,000 rather than the requested 100,000, although
the chromosome is long enough for the full window. -/
theorem zoomBar_overhang_counterexample :
    handleZoomBarChange 1000000 ⟨0, 50000⟩ 10 = ⟨0, 75000⟩ ∧
      (75000 : ℚ) - 0 ≠ 1000000 / 10 := by
  constructor
  · rw [zoomBar_eq]
    norm_num [jsRound, max_def, min_def]
  · norm_num

/-! ## Claim C4 -/

/-- Claim C4 (corrected, positive part).  The full view snap is applied in
the d3 zoom handler: whenever the region derived from the gesture
transform has, after clamping, a start within 1 bp of 0 and an end within
1 bp of the length, and it differs from the previous region by more than
the 0.5 bp update guard, the handler stores exactly `[0, length]`.  The
other interaction channels commit without applying the snap; see the
slider counterexample. -/
theorem zoomHandler_snap (L W : ℚ) (prev : Region) (t : Transform)
    (h0 : max 0 (rescaledDomain L W t).1 ≤ 0 + 1)
    (h1 : L - 1 ≤ min L (rescaledDomain L W t).2)
    (hguard : 1/2 < |0 - prev.start| ∨ 1/2 < |L - prev.stop|) :
    zoomHandlerCommit L W prev t = ⟨0, L⟩ := by
  have hsnap : transformToRegion L W t = ⟨0, L⟩ := by
    unfold transformToRegion snapRegion
    rw [if_pos]
    exact ⟨h0, h1⟩
  unfold zoomHandlerCommit
  simp only [hsnap]
  exact if_pos hguard

/-- Witness for `zoomHandler_snap`: the identity transform on a 1000 bp
chromosome derives the full domain, and from the previous region
`[200, 800]` the handler stores `[0, 1000]` exactly. -/
theorem zoomHandler_snap_witness :
    zoomHandlerCommit 1000 600 ⟨200, 800⟩ ⟨1, 0⟩ = ⟨0, 1000⟩ := by
  have h := zoomHandler_snap 1000 600 ⟨200, 800⟩ ⟨1, 0⟩
  apply h
  · norm_num [rescaledDomain, zoomXInv, invertX, scaleInvert, max_def]
  · norm_num [rescaledDomain, zoomXInv, invertX, scaleInvert, min_def]
  · left; norm_num

/-- Claim C4 counterexample: on a 1000 bp chromosome at full view, moving
the slider to zoom factor 1000/998 commits `[1, 999]`.  Both bounds are
within 1 bp of the extremes, yet the stored region is not snapped to
`[0, 1000]`: the slider handler has no snap step. -/
theorem slider_no_snap_counterexample :
    handleZoomBarChange 1000 ⟨0, 1000⟩ (1000 / 998) = ⟨1, 999⟩ ∧
      ((1 : ℚ) ≤ 0 + 1 ∧ (1000 : ℚ) - 1 ≤ 999) ∧
      (⟨1, 999⟩ : Region) ≠ ⟨0, 1000⟩ := by
  refine ⟨?_, by norm_num, by simp⟩
  rw [zoomBar_eq]
  norm_num [jsRound, max_def, min_def]

/-! ## Claim C5 -/

/-- Claim C5 (confirmed).  A chromosome bar pan commits the drag start
region shifted by the total pixel delta times the bp per pixel ratio of
the drag start region over the inner viewport width (the content moves
opposite to the pointer delta, and the ratio is the one captured at drag
start); when no bound crosses the chromosome ends the shifted region is
committed exactly, and in every case the committed region keeps the drag
start width and stays inside `[0, length]` whenever that width is at most
the chromosome length. -/
theorem dragChromosome_pan_spec (L W : ℚ) (r : Region) (deltaX : ℚ)
    (h0 : 0 ≤ r.start) (heL : r.stop ≤ L) :
    (dragChromosome L W r deltaX).stop - (dragChromosome L W r deltaX).start
        = r.stop - r.start ∧
    0 ≤ (dragChromosome L W r deltaX).start ∧
    (dragChromosome L W r deltaX).stop ≤ L ∧
    (0 ≤ r.start - deltaX * ((r.stop - r.start) / (W - 120)) →
      r.stop - deltaX * ((r.stop - r.start) / (W - 120)) ≤ L →
      dragChromosome L W r deltaX =
        ⟨r.start - deltaX * ((r.stop - r.start) / (W - 120)),
         r.stop - deltaX * ((r.stop - r.start) / (W - 120))⟩) :=
  dragChromosome_props L W r deltaX h0 heL

/-- Witness for `dragChromosome_pan_spec`: panning the region `[100, 200]`
of a 1000 bp chromosome by minus 48 px at 480 inner pixels shifts it by
plus 10 bp. -/
theorem dragChromosome_pan_spec_witness :
    dragChromosome 1000 600 ⟨100, 200⟩ (-48) = ⟨110, 210⟩ ∧
      (0 : ℚ) ≤ 100 ∧ (200 : ℚ) ≤ 1000 := by
  refine ⟨?_, by norm_num, by norm_num⟩
  have h := (dragChromosome_pan_spec 1000 600 ⟨100, 200⟩ (-48)
    (by norm_num) (by norm_num)).2.2.2
  have hx : (0 : ℚ) ≤ 100 - (-48) * ((200 - 100) / (600 - 120)) := by norm_num
  have hy : (200 : ℚ) - (-48) * ((200 - 100) / (600 - 120)) ≤ 1000 := by norm_num
  have heq := h hx hy
  rw [heq]
  norm_num

/-! ## Claim C1 -/

/-- Claim C1 (corrected).  Every region committed through any modeled
interaction path with in-range inputs, from a stored region satisfying
the invariant, satisfies `0 ≤ start ≤ end ≤ length`.  The strict
`start < end` and the fixed 10 bp minimum width asserted by the claim do
not hold on every path: see the counterexample, where the manual input
path commits the degenerate region `[length, length]`. -/
theorem commit_region_in_bounds (n : ℕ) (W : ℚ) (prev : Region) (e : CommitEvent)
    (hn : 0 < n) (hW : 180 < W) (hprev : RegionInBounds (n : ℚ) prev)
    (hv : ValidEvent (n : ℚ) W e) :
    RegionInBounds (n : ℚ) (commit (n : ℚ) W prev e) := by
  have hL : (0 : ℚ) < (n : ℚ) := by exact_mod_cast hn
  have hW120 : (120 : ℚ) < W := by linarith
  cases e with
  | zoomGesture t =>
      obtain ⟨hk, hd0, hd1⟩ := hv
      show RegionInBounds (n : ℚ) (zoomHandlerCommit (n : ℚ) W prev t)
      simp only [zoomHandlerCommit]
      split_ifs with h
      · exact transformToRegion_in_bounds (n : ℚ) W t hL hW hk hd0 hd1
      · exact hprev
  | indicatorDrag adjX =>
      exact dragZoomRect_in_bounds (n : ℚ) W prev adjX hL hW120 hprev
  | chromosomePan dX =>
      obtain ⟨h0, hse, heL⟩ := hprev
      obtain ⟨hwidth, hstart, hstop, _⟩ :=
        dragChromosome_props (n : ℚ) W prev dX h0 heL
      show RegionInBounds (n : ℚ) (dragChromosome (n : ℚ) W prev dX)
      exact ⟨hstart, by linarith, hstop⟩
  | scaleBrush x0 x1 =>
      obtain ⟨hx0, hx01, hx1⟩ := hv
      exact scaleBrush_in_bounds (n : ℚ) W prev x0 x1 hW120 hprev hx0 hx01 hx1
  | zoomSlider z =>
      exact zoomBar_in_bounds n prev z hv hprev
  | positionSubmit es ee =>
      obtain ⟨h1, h2, h3, _⟩ := commitPositionValues_wf (n : ℚ)
        ((jsParseInt (stripCommas es)).getD (jsRound prev.start))
        ((jsParseInt (stripCommas ee)).getD (jsRound prev.stop)) hL.le
      exact ⟨h1, h2, h3⟩
  | reset =>
      exact ⟨le_rfl, hL.le, le_rfl⟩

/-- Witness for `commit_region_in_bounds`: a slider commit at zoom factor
2 on a 1000 bp chromosome at full view yields an in-bounds region. -/
theorem commit_region_in_bounds_witness :
    RegionInBounds ((1000 : ℕ) : ℚ)
      (commit ((1000 : ℕ) : ℚ) 600 ⟨0, 1000⟩ (CommitEvent.zoomSlider 2)) :=
  commit_region_in_bounds 1000 600 ⟨0, 1000⟩ (CommitEvent.zoomSlider 2)
    (by norm_num) (by norm_num)
    (by refine ⟨by norm_num, by norm_num, by norm_num⟩)
    (by show (1 : ℚ) ≤ 2; norm_num)

/-- Claim C1 counterexample: submitting the manual position form with
both fields equal to the chromosome length commits the degenerate region
`[1000, 1000]`: its bounds are not strictly ordered and its width is 0,
far below the 10 bp minimum the claim asserts for every path. -/
theorem commit_degenerate_counterexample :
    commit 1000 600 ⟨0, 1000⟩ (CommitEvent.positionSubmit "1000" "1000") = ⟨1000, 1000⟩ ∧
      ¬ ((1000 : ℚ) < 1000 ∧ 10 ≤ (1000 : ℚ) - 1000) := by
  constructor
  · have hps : jsParseInt (stripCommas "1000") = some 1000 := rfl
    show handlePositionSubmit 1000 (jsRound (0 : ℚ)) (jsRound (1000 : ℚ)) "1000" "1000"
        = ⟨1000, 1000⟩
    unfold handlePositionSubmit
    rw [hps]
    show commitPositionValues 1000 1000 1000 = ⟨1000, 1000⟩
    unfold commitPositionValues
    norm_num [max_def, min_def]
  · norm_num

/-! ## Claim C6 -/

/-- Claim C6 (confirmed).  With the default buffer fraction 0.2, a gene of
the collection is in the visibility query result for `[start, end]` iff
its end reaches the buffered start and its start does not pass the
buffered end.  The clamp of the buffered start at 0 in the source is
immaterial for genes with nonnegative end coordinate, which the gene data
model guarantees. -/
theorem getVisibleGenes_mem_iff (genes : List Gene) (g : Gene) (s e : ℚ)
    (hg : 0 ≤ g.stop) (hmem : g ∈ genes) :
    g ∈ getVisibleGenes genes s e (1/5) ↔
      s - (e - s) * (1/5) ≤ g.stop ∧ g.start ≤ e + (e - s) * (1/5) := by
  unfold getVisibleGenes
  simp only [List.mem_filter, hmem, true_and, Bool.and_eq_true, decide_eq_true_eq]
  constructor
  · rintro ⟨h1, h2⟩
    exact ⟨le_trans (le_max_right _ _) h2, h1⟩
  · rintro ⟨h1, h2⟩
    exact ⟨h2, max_le hg h1⟩

/-- Witness for `getVisibleGenes_mem_iff`: the gene spanning
`[1000000, 1010000]` is included for the region `[990000, 1005000]`
(buffer 3000 bp) and excluded for `[2000000, 2010000]` (buffer 2000
bp). -/
theorem getVisibleGenes_mem_iff_witness :
    (⟨"gene1", 1000000, 1010000, '+'⟩ : Gene) ∈
      getVisibleGenes [⟨"gene1", 1000000, 1010000, '+'⟩] 990000 1005000 (1/5) ∧
    (⟨"gene1", 1000000, 1010000, '+'⟩ : Gene) ∉
      getVisibleGenes [⟨"gene1", 1000000, 1010000, '+'⟩] 2000000 2010000 (1/5) := by
  constructor
  · exact (getVisibleGenes_mem_iff _ _ _ _ (by norm_num) (by simp)).mpr (by norm_num)
  · intro h
    have hcond := (getVisibleGenes_mem_iff
      [⟨"gene1", 1000000, 1010000, '+'⟩] ⟨"gene1", 1000000, 1010000, '+'⟩
      2000000 2010000 (by norm_num) (by simp)).mp h
    norm_num at hcond

/-! ## Claim C7 -/

/-- Claim C7 (confirmed).  The manual position form parses each field as
an integer after removing commas; a field that fails to parse falls back
to the current committed value for that field; then the values are
swapped if inverted, clamped into `[0, length]`, and the end expanded to
start plus 10 (clamped to the length) when the width falls below 10 bp.
The committed region is always well formed and the handler is a total
function: no text input propagates an error. -/
theorem handlePositionSubmit_repairs (L : ℚ) (rs re : ℤ) (es ee : String)
    (hL : 0 ≤ L) :
    (0 ≤ (handlePositionSubmit L rs re es ee).start ∧
     (handlePositionSubmit L rs re es ee).start ≤ (handlePositionSubmit L rs re es ee).stop ∧
     (handlePositionSubmit L rs re es ee).stop ≤ L ∧
     (10 ≤ (handlePositionSubmit L rs re es ee).stop -
        (handlePositionSubmit L rs re es ee).start ∨
      (handlePositionSubmit L rs re es ee).stop = L)) ∧
    (jsParseInt (stripCommas es) = none →
      handlePositionSubmit L rs re es ee =
        commitPositionValues L rs ((jsParseInt (stripCommas ee)).getD re)) ∧
    (jsParseInt (stripCommas ee) = none →
      handlePositionSubmit L rs re es ee =
        commitPositionValues L ((jsParseInt (stripCommas es)).getD rs) re) := by
  refine ⟨?_, ?_, ?_⟩
  · exact commitPositionValues_wf L _ _ hL
  · intro h
    unfold handlePositionSubmit
    rw [h, Option.getD_none]
  · intro h
    unfold handlePositionSubmit
    rw [h, Option.getD_none]

/-- Witness for `handlePositionSubmit_repairs`: the unparsable start field
falls back to the committed 0 and the end field parses as 2000, clamped
to the 1000 bp length. -/
theorem handlePositionSubmit_repairs_witness :
    0 ≤ (handlePositionSubmit 1000 0 1000 "abc" "2,000").start ∧
    (handlePositionSubmit 1000 0 1000 "abc" "2,000").start ≤
      (handlePositionSubmit 1000 0 1000 "abc" "2,000").stop ∧
    (handlePositionSubmit 1000 0 1000 "abc" "2,000").stop ≤ 1000 ∧
    (10 ≤ (handlePositionSubmit 1000 0 1000 "abc" "2,000").stop -
       (handlePositionSubmit 1000 0 1000 "abc" "2,000").start ∨
     (handlePositionSubmit 1000 0 1000 "abc" "2,000").stop = 1000) :=
  (handlePositionSubmit_repairs 1000 0 1000 "abc" "2,000" (by norm_num)).1

/-! ## Claim C8 -/

/-- Claim C8 (confirmed).  Clicking a gene glyph or hit box while a
different gene is hovered (the pointer having left the hovered gene and
entered the clicked one inside one throttle window) leaves the hover
cleared and the clicked gene selected; the click handler stops
propagation, so the background clearing handler does not undo the
selection.  A subsequent click on either track background clears the
selection, restoring the state with nothing selected or hovered. -/
theorem select_clears_hover_then_background_clears (a b : Gene) (st : UIState)
    (_hb : st.hovered = some b) (hth : st.throttleBusy = false) :
    (run st [UIEvent.mouseoutGene, UIEvent.mouseoverGene a, UIEvent.clickGene a]).hovered
        = none ∧
    (run st [UIEvent.mouseoutGene, UIEvent.mouseoverGene a, UIEvent.clickGene a]).selected
        = some a ∧
    (run st [UIEvent.mouseoutGene, UIEvent.mouseoverGene a, UIEvent.clickGene a,
      UIEvent.clickBackground]).hovered = none ∧
    (run st [UIEvent.mouseoutGene, UIEvent.mouseoverGene a, UIEvent.clickGene a,
      UIEvent.clickBackground]).selected = none := by
  simp [run, step, hth]

/-- Witness for `select_clears_hover_then_background_clears` on two
concrete genes. -/
theorem select_clears_hover_witness :
    (run ⟨some ⟨"g2", 20, 30, '-'⟩, none, false⟩
      [UIEvent.mouseoutGene, UIEvent.mouseoverGene ⟨"g1", 0, 10, '+'⟩,
        UIEvent.clickGene ⟨"g1", 0, 10, '+'⟩]).hovered = none ∧
    (run ⟨some ⟨"g2", 20, 30, '-'⟩, none, false⟩
      [UIEvent.mouseoutGene, UIEvent.mouseoverGene ⟨"g1", 0, 10, '+'⟩,
        UIEvent.clickGene ⟨"g1", 0, 10, '+'⟩]).selected = some ⟨"g1", 0, 10, '+'⟩ ∧
    (run ⟨some ⟨"g2", 20, 30, '-'⟩, none, false⟩
      [UIEvent.mouseoutGene, UIEvent.mouseoverGene ⟨"g1", 0, 10, '+'⟩,
        UIEvent.clickGene ⟨"g1", 0, 10, '+'⟩, UIEvent.clickBackground]).hovered = none ∧
    (run ⟨some ⟨"g2", 20, 30, '-'⟩, none, false⟩
      [UIEvent.mouseoutGene, UIEvent.mouseoverGene ⟨"g1", 0, 10, '+'⟩,
        UIEvent.clickGene ⟨"g1", 0, 10, '+'⟩, UIEvent.clickBackground]).selected = none :=
  select_clears_hover_then_background_clears ⟨"g1", 0, 10, '+'⟩ ⟨"g2", 20, 30, '-'⟩
    ⟨some ⟨"g2", 20, 30, '-'⟩, none, false⟩ rfl rfl

/-! ## Claim C9 -/

/-- Claim C9 (confirmed).  With a nonempty cleaned sequence, per base
letters render iff the region width in bp is at most one fifth of the
inner detail viewport width in px; at 600 inner pixels this is width at
most 120 bp. -/
theorem dnaLetters_iff (r : Region) (W : ℚ) (seqLen : ℕ)
    (hseq : 0 < seqLen) (hW : 120 < W) :
    showDnaLetters r W seqLen = true ↔ r.stop - r.start ≤ (W - 120) / 5 := by
  simp only [showDnaLetters, Bool.and_eq_true, decide_eq_true_eq, hseq, and_true]
  rw [div_le_iff₀ (by linarith : (0:ℚ) < W - 120)]
  constructor <;> intro h <;> linarith

/-- Witness for `dnaLetters_iff`: at 600 inner pixels (window width 720),
a 120 bp region shows letters and a 121 bp region does not. -/
theorem dnaLetters_iff_witness :
    showDnaLetters ⟨0, 120⟩ 720 100 = true ∧ showDnaLetters ⟨0, 121⟩ 720 100 = false := by
  constructor
  · exact (dnaLetters_iff ⟨0, 120⟩ 720 100 (by norm_num) (by norm_num)).mpr (by norm_num)
  · have h := dnaLetters_iff ⟨0, 121⟩ 720 100 (by norm_num) (by norm_num)
    rw [Bool.eq_false_iff]
    intro hc
    have := h.mp hc
    norm_num at this

/-! ## Claim C10 -/

/-- Claim C10 (confirmed).  Every letter the per base loop draws from the
module load cleaned sequence is one of A, C, G, T, so the default color
fallback branch of the base color lookup is unreachable for the loaded
sequence. -/
theorem renderedLetters_acgt (s : String) (r : Region) (c : Char)
    (hc : c ∈ renderedLetters (cleanSequence s) r) :
    (c = 'A' ∨ c = 'C' ∨ c = 'G' ∨ c = 'T') ∧ baseColorOrDefault c ≠ "#222" := by
  simp only [renderedLetters] at hc
  have h1 : c ∈ (cleanSequence s).data := List.mem_of_mem_drop (List.mem_of_mem_take hc)
  have h2 : c ∈ (s.data.map Char.toUpper).filter
      (fun c => c == 'A' || c == 'C' || c == 'G' || c == 'T') := h1
  have h3 := (List.mem_filter.mp h2).2
  simp only [Bool.or_eq_true, beq_iff_eq] at h3
  have h4 : c = 'A' ∨ c = 'C' ∨ c = 'G' ∨ c = 'T' := by tauto
  refine ⟨h4, ?_⟩
  rcases h4 with h | h | h | h <;> subst h <;> decide

/-- Witness for `renderedLetters_acgt`: the letter A drawn from the
cleaned sequence of the raw text acgt. -/
theorem renderedLetters_acgt_witness :
    'A' ∈ renderedLetters (cleanSequence "acgt") ⟨0, 4⟩ ∧
      (('A' = 'A' ∨ 'A' = 'C' ∨ 'A' = 'G' ∨ 'A' = 'T') ∧
        baseColorOrDefault 'A' ≠ "#222") := by
  have hmem : 'A' ∈ renderedLetters (cleanSequence "acgt") ⟨0, 4⟩ := by decide
  exact ⟨hmem, renderedLetters_acgt "acgt" ⟨0, 4⟩ 'A' hmem⟩

end CGpt
